import Mathlib

/-!
Verification of the prompt-processing core of the ChatGPT Prompt Keyword
Analyzer (React/TypeScript).  The definitions below are a shallow embedding
of the source:

* `findKeywordMatches` embeds the matcher of `src/App.tsx` (duplicated in
  the batch component): for each keyword it builds `new RegExp(keyword, 'gi')`,
  takes `text.match(regex)` for the count, re-scans with `exec` for the
  positions, and filters out zero-count keywords.
* JavaScript regexes are modelled on the fragment actually reachable from
  keyword strings made of ordinary characters and the `.` metacharacter:
  a pattern is a fixed-length sequence of single-character matchers
  (`RChar.lit` for a literal character compared case-insensitively, matching
  the `i` flag; `RChar.dot` for `.`, which matches anything but a line
  terminator).  Text positions are codepoint offsets.
* The `g`-flag iteration of `exec` is embedded with explicit fuel
  (`execLoop`): the JavaScript loop does not advance past an empty match and
  hence diverges there, which the fuel makes observable (`Bool` flag false
  for every fuel).  `String.prototype.match` advances by one on an empty
  match (`AdvanceStringIndex`), embedded as `matchLoop`.
-/

inductive RChar where
  | lit (c : Char)
  | dot
deriving Repr, DecidableEq, Inhabited

abbrev RPat := List RChar

/-- Does one pattern unit match one character?  `lit` compares
case-insensitively (the `i` flag); `dot` matches any character except a
line terminator. -/
def rcharMatches : RChar → Char → Bool
  | .lit c, d => c.toLower == d.toLower
  | .dot, d => !(d == '\n' || d == '\r' || d == '\u2028' || d == '\u2029')

/-- Does the pattern match a prefix of the character list? -/
def prefMatch : RPat → List Char → Bool
  | [], _ => true
  | _ :: _, [] => false
  | r :: p, c :: t => rcharMatches r c && prefMatch p t

/-- Structural worker for `findFrom`: tries positions `i, i+1, …` while the
step budget lasts. -/
def findFromAux (p : RPat) (t : List Char) : Nat → Nat → Option Nat
  | 0, _ => none
  | steps + 1, i =>
    if prefMatch p (t.drop i) then some i
    else findFromAux p t steps (i + 1)

/-- First index `j ≥ i` at which the pattern matches (regex engines try
each start position in order, up to and including the end of the text).
`none` when no such position exists. -/
def findFrom (p : RPat) (t : List Char) (i : Nat) : Option Nat :=
  findFromAux p t (t.length + 1 - i) i

/-- The `while ((match = searchRegex.exec(text)) !== null)` loop of the
source, with explicit fuel.  After a match at `i` the `lastIndex` becomes
the end of the match, `i + p.length`; an empty pattern therefore never
advances.  The boolean is `true` when the loop reached its natural end
within the given fuel, `false` when fuel ran out (the loop diverges). -/
def execLoop (p : RPat) (t : List Char) : Nat → Nat → List Nat × Bool
  | 0, _ => ([], false)
  | fuel + 1, pos =>
    match findFrom p t pos with
    | none => ([], true)
    | some i =>
      let r := execLoop p t fuel (i + p.length)
      (i :: r.1, r.2)

/-- The iteration underlying `text.match(regex)` with the `g` flag: same
scan, but an empty match advances the position by one
(`AdvanceStringIndex`), so this loop always terminates. -/
def matchLoop (p : RPat) (t : List Char) : Nat → Nat → List Nat
  | 0, _ => []
  | fuel + 1, pos =>
    match findFrom p t pos with
    | none => []
    | some i => i :: matchLoop p t fuel (i + max p.length 1)

/-- Position list collected by the source's `exec` loop; `none` when the
loop diverges (fuel `t.length + 1` is enough for every terminating run,
and no fuel is ever enough for a diverging one). -/
def scanPositions (p : RPat) (t : List Char) : Option (List Nat) :=
  let r := execLoop p t (t.length + 1) 0
  if r.2 then some r.1 else none

/-- `(text.match(regex) || []).length` of the source. -/
def jsMatchCount (p : RPat) (t : List Char) : Nat :=
  (matchLoop p t (t.length + 1) 0).length

/-- `new RegExp(keyword, 'gi')` on the embedded fragment: characters are
taken as pattern syntax directly — the source does not escape them, so `.`
becomes the wildcard. -/
def compileKeyword (kw : String) : RPat :=
  kw.data.map (fun c => if c = '.' then RChar.dot else RChar.lit c)

/-- The spec's recommended hardening (§4.1, §9): quote every character so
the keyword is matched as literal text. -/
def escapeKeyword (kw : String) : RPat :=
  kw.data.map RChar.lit

structure KeywordMatch where
  keyword : String
  count : Nat
  positions : List Nat
deriving Repr, DecidableEq

/-- The per-keyword body of `findKeywordMatches`: count from
`text.match`, positions from the `exec` loop. -/
def scanKeyword (p : RPat) (text : String) : Option (Nat × List Nat) :=
  (scanPositions p text.data).map fun positions => (jsMatchCount p text.data, positions)

/-- `keywords.map(...)` of the source, sequential, propagating divergence. -/
def scanKeywords (text : String) : List String → Option (List KeywordMatch)
  | [] => some []
  | kw :: rest =>
    match scanKeyword (compileKeyword kw) text with
    | none => none
    | some r =>
      match scanKeywords text rest with
      | none => none
      | some ms => some ({ keyword := kw, count := r.1, positions := r.2 } :: ms)

/-- `findKeywordMatches` of `src/App.tsx` lines 56–74: map every keyword to
its count and positions, then `.filter(match => match.count > 0)`. -/
def findKeywordMatches (text : String) (keywords : List String) :
    Option (List KeywordMatch) :=
  (scanKeywords text keywords).map fun ms => ms.filter fun m => m.count > 0

/-- Modelled from the spec: the matcher as §4.1 requires it, with every
keyword escaped before pattern interpretation (literal substring search). -/
def scanKeywordsEscaped (text : String) : List String → Option (List KeywordMatch)
  | [] => some []
  | kw :: rest =>
    match scanKeyword (escapeKeyword kw) text with
    | none => none
    | some r =>
      match scanKeywordsEscaped text rest with
      | none => none
      | some ms => some ({ keyword := kw, count := r.1, positions := r.2 } :: ms)

/-- Modelled from the spec: `findKeywordMatches` with literal-text keywords. -/
def findKeywordMatchesEscaped (text : String) (keywords : List String) :
    Option (List KeywordMatch) :=
  (scanKeywordsEscaped text keywords).map fun ms => ms.filter fun m => m.count > 0

example : findKeywordMatches "cat CAT cAt" ["Cat"] =
    some [⟨"Cat", 3, [0, 4, 8]⟩] := by decide

example : findKeywordMatches "aaaa" ["aa"] = some [⟨"aa", 2, [0, 2]⟩] := by decide

example : findKeywordMatches "axb" ["a.b"] = some [⟨"a.b", 1, [0]⟩] := by decide

example : findKeywordMatchesEscaped "axb" ["a.b"] = some [] := by decide

/-! ## Data model (`src/types.ts` shapes as used by `src/App.tsx`) -/

inductive AnalysisStatus where
  | pending
  | processing
  | completed
  | error
deriving Repr, DecidableEq, Inhabited

structure PromptAnalysis where
  id : String
  prompt : String
  response : String
  keywordMatches : List KeywordMatch
  timestamp : Nat
  status : AnalysisStatus
  error : Option String := none
deriving Repr, DecidableEq

inductive SessionStatus where
  | idle
  | running
  | completed
  | error
deriving Repr, DecidableEq, Inhabited

structure AnalysisSession where
  id : String
  prompts : List String
  keywords : List String
  results : List PromptAnalysis
  startTime : Nat
  endTime : Option Nat := none
  status : SessionStatus
deriving Repr, DecidableEq

structure AnalyticsData where
  totalPrompts : Nat
  totalResponses : Nat
  totalKeywordMatches : Nat
  averageResponseLength : Int
  keywordFrequency : List (String × Nat)
  processingTime : Int
deriving Repr, DecidableEq

/-- `Math.round`: round half up (also for negatives), `⌊x + 1/2⌋`. -/
def mathRound (q : ℚ) : ℤ := ⌊q + 1 / 2⌋

/-- `freq[match.keyword] = (freq[match.keyword] || 0) + match.count` on a
JavaScript object, embedded as an insertion-ordered association list. -/
def bumpFreq (freq : List (String × Nat)) (k : String) (c : Nat) : List (String × Nat) :=
  if freq.any (fun kv => kv.1 == k) then
    freq.map (fun kv => if kv.1 == k then (kv.1, kv.2 + c) else kv)
  else freq ++ [(k, c)]

/-- The `analytics` object of `src/App.tsx` lines 36–54.  `Date.now()` is the
explicit argument `now`; `currentSession` is `none` when the React state is
null. -/
def analytics (analyses : List PromptAnalysis) (currentSession : Option AnalysisSession)
    (now : Nat) : AnalyticsData :=
  { totalPrompts := analyses.length
    totalResponses := (analyses.filter (fun a => a.status == .completed)).length
    totalKeywordMatches := analyses.foldl
      (fun sum a => sum + a.keywordMatches.foldl (fun matchSum m => matchSum + m.count) 0) 0
    averageResponseLength :=
      if analyses.length > 0 then
        mathRound ((analyses.foldl (fun sum a => sum + a.response.length) 0 : ℚ) /
          (analyses.length : ℚ))
      else 0
    keywordFrequency := analyses.foldl
      (fun freq a => a.keywordMatches.foldl (fun f m => bumpFreq f m.keyword m.count) freq) []
    processingTime :=
      match currentSession with
      | none => 0
      | some s => ((s.endTime.getD now : Nat) : Int) - (s.startTime : Int) }

/-- Modelled from the spec (§3 `AnalyticsData`): mean character length of the
responses of completed items only, rounded to nearest integer; 0 when no
item is completed. -/
def averageResponseLengthSpec (analyses : List PromptAnalysis) : Int :=
  let completed := analyses.filter (fun a => a.status == .completed)
  if completed.length > 0 then
    mathRound ((((completed.map (fun a => a.response.length)).sum : ℕ) : ℚ) /
      (completed.length : ℚ))
  else 0

/-- Modelled from the spec, amended to what the code computes: mean over all
items (a non-completed item contributes its empty response, length 0);
0 when the item list is empty. -/
def averageResponseLengthAll (analyses : List PromptAnalysis) : Int :=
  if analyses.length = 0 then 0
  else
    mathRound ((((analyses.map (fun a => a.response.length)).sum : ℕ) : ℚ) /
      (analyses.length : ℚ))

/-! ## Decimal strings

`Date.now()` values reach the session and item ids through the template
literals `` `session-${Date.now()}` `` etc.  The number-to-string conversion
is embedded below: little-endian digit list (`decDigitsRev`, via a
structural step budget so that the kernel can evaluate it), most-significant
first with the zero special case (`decRep`), then digit characters. -/

def decDigitsRevAux : Nat → Nat → List Nat
  | 0, _ => []
  | _ + 1, 0 => []
  | fuel + 1, n + 1 => ((n + 1) % 10) :: decDigitsRevAux fuel ((n + 1) / 10)

def decDigitsRev (n : Nat) : List Nat :=
  decDigitsRevAux n n

/-- Decimal digits, most significant first, as JavaScript prints a natural
number. -/
def decRep (n : Nat) : List Nat :=
  if n = 0 then [0] else (decDigitsRev n).reverse

def natToString (n : Nat) : String :=
  String.mk ((decRep n).map Nat.digitChar)

def sessionIdOf (t : Nat) : String := "session-" ++ natToString t

def analysisId (t i : Nat) : String :=
  "analysis-" ++ natToString t ++ "-" ++ natToString i

example : natToString 1234 = "1234" := by decide
example : sessionIdOf 0 = "session-0" := by decide

/-! ## Sequential scheduler (`src/App.tsx` lines 76–199)

The provider call `blink.ai.generateText` is the external collaborator; its
outcome per prompt index is the explicit oracle
`provider : Nat → Except String String` (`.ok text` for a successful
generation, `.error msg` for a rejected call, `msg` being the message the
`catch` block would capture).  `Date.now()` is the explicit clock value `t`,
held constant over the run (the claims under verification do not depend on
intermediate clock readings).  A `none` result marks a run that never
finishes (the keyword scan of some completed item diverges) or, for
`startAnalysis`, the early return on empty inputs. -/

/-- The `pending` placeholder of `initialAnalyses` (lines 144–151). -/
def initialAnalysis (t i : Nat) (prompt : String) : PromptAnalysis :=
  { id := analysisId t i, prompt := prompt, response := "", keywordMatches := []
    timestamp := t, status := .pending, error := none }

def initialAnalyses (prompts : List String) (t : Nat) : List PromptAnalysis :=
  prompts.enum.map fun pi => initialAnalysis t pi.1 pi.2

/-- The `status: 'processing'` update of lines 81–83. -/
def markProcessing (a : PromptAnalysis) : PromptAnalysis :=
  { a with status := .processing }

/-- `processPrompt` (lines 76–121): on provider success the response text is
scanned and a `completed` item built; any provider failure is caught and
becomes an `error` item with empty response and captured message. -/
def processPrompt (keywords : List String) (prompt : String)
    (outcome : Except String String) (t : Nat) (itemId : String) :
    Option PromptAnalysis :=
  match outcome with
  | .ok text =>
    (findKeywordMatches text keywords).map fun keywordMatches =>
      { id := itemId, prompt := prompt, response := text
        keywordMatches := keywordMatches, timestamp := t
        status := .completed, error := none }
  | .error msg =>
    some { id := itemId, prompt := prompt, response := ""
           keywordMatches := [], timestamp := t
           status := .error, error := some msg }

/-- The `for` loop of `startAnalysis` (lines 156–172), collecting one result
per prompt in input order. -/
def runPrompts (keywords : List String) (provider : Nat → Except String String)
    (t : Nat) : List String → Nat → Option (List PromptAnalysis)
  | [], _ => some []
  | p :: rest, i =>
    match processPrompt keywords p (provider i) t (analysisId t i) with
    | none => none
    | some a =>
      match runPrompts keywords provider t rest (i + 1) with
      | none => none
      | some results => some (a :: results)

/-- `startAnalysis` (lines 123–193): guard on empty inputs, session snapshot
with id `session-${Date.now()}`, sequential processing, then
`endTime`/`status: 'completed'`. -/
def startAnalysis (prompts keywords : List String)
    (provider : Nat → Except String String) (t : Nat) : Option AnalysisSession :=
  if prompts.length = 0 ∨ keywords.length = 0 then none
  else
    match runPrompts keywords provider t prompts 0 with
    | none => none
    | some results =>
      some { id := sessionIdOf t, prompts := prompts, keywords := keywords
             results := results, startTime := t, endTime := some t
             status := .completed }

structure AppState where
  prompts : List String
  keywords : List String
  analyses : List PromptAnalysis
  currentSession : Option AnalysisSession
  isRunning : Bool
deriving Repr, DecidableEq

/-- `resetAnalysis` (lines 195–199). -/
def resetAnalysis (st : AppState) : AppState :=
  { st with analyses := [], currentSession := none, isRunning := false }

/-! ## Batch upload and batch runner (the `BatchAnalysis` component) -/

structure BatchRow where
  prompt : String
  keywords : List String
deriving Repr, DecidableEq

/-- `.replace(/"/g, '')`. -/
def stripQuotes (s : String) : String :=
  String.mk (s.data.filter fun c => c != '"')

/-- JavaScript `String.prototype.trim` on the character set occurring here
(space, tab, CR, LF), via structural recursion so the kernel can evaluate
it. -/
def isJSSpace (c : Char) : Bool :=
  c == ' ' || c == '\t' || c == '\n' || c == '\r'

def jsTrim (s : String) : String :=
  String.mk (((s.data.dropWhile isJSSpace).reverse.dropWhile isJSSpace).reverse)

/-- JavaScript `String.prototype.split` with a one-character separator. -/
def splitOnCharGo (sep : Char) : List Char → String → List String
  | [], current => [current]
  | c :: rest, current =>
    if c == sep then current :: splitOnCharGo sep rest ""
    else splitOnCharGo sep rest (current.push c)

def splitOnChar (sep : Char) (s : String) : List String :=
  splitOnCharGo sep s.data ""

/-- The character loop of `parseCSV` splitting a line into fields, tracking
`inQuotes`; every field is pushed trimmed. -/
def splitFieldsGo : List Char → String → Bool → List String → List String
  | [], current, _, fields => fields ++ [jsTrim current]
  | c :: rest, current, inQuotes, fields =>
    if c == '"' then splitFieldsGo rest current (!inQuotes) fields
    else if c == ',' && !inQuotes then
      splitFieldsGo rest "" inQuotes (fields ++ [jsTrim current])
    else splitFieldsGo rest (current.push c) inQuotes fields

def splitCSVLine (line : String) : List String :=
  splitFieldsGo line.data "" false []

/-- The per-line body of `parseCSV` (lines 57–88 of the batch component):
`none` for a row that is skipped (too few fields, or empty prompt/keywords
after unquoting — JavaScript truthiness on strings). -/
def parseCSVRow (promptIndex keywordsIndex : Nat) (line : String) : Option BatchRow :=
  let fields := splitCSVLine line
  if fields.length ≥ max (promptIndex + 1) (keywordsIndex + 1) then
    let prompt := jsTrim (stripQuotes (fields.getD promptIndex ""))
    let keywordsStr := jsTrim (stripQuotes (fields.getD keywordsIndex ""))
    if prompt ≠ "" ∧ keywordsStr ≠ "" then
      some { prompt := prompt
             keywords := ((splitOnChar ',' keywordsStr).map jsTrim).filter
               fun k => k != "" }
    else none
  else none

/-- `parseCSV`: header check (throwing when the required columns are
missing), then the row loop, skipping blank lines and invalid rows. -/
def parseCSV (csvText : String) : Except String (List BatchRow) :=
  let lines := splitOnChar '\n' (jsTrim csvText)
  let headers := (splitOnChar ',' (lines.getD 0 "")).map fun h => stripQuotes (jsTrim h)
  if headers.contains "prompt" && headers.contains "keywords" then
    let promptIndex := headers.indexOf "prompt"
    let keywordsIndex := headers.indexOf "keywords"
    .ok ((lines.drop 1).filterMap fun l =>
      let line := jsTrim l
      if line = "" then none else parseCSVRow promptIndex keywordsIndex line)
  else
    .error "CSV must contain \"prompt\" and \"keywords\" columns"

/-- The `reader.onload` try/catch of `handleFileUpload` (lines 100–119):
result is the error banner (if any) and the stored batch data, which is
cleared on every failure. -/
def handleFileUpload (csvText : String) : Option String × List BatchRow :=
  match parseCSV csvText with
  | .error msg => (some msg, [])
  | .ok rows =>
    if rows.length = 0 then (some "No valid rows found in CSV file", [])
    else if rows.length > 50 then (some "Maximum 50 rows allowed per batch", [])
    else (none, rows)

/-- `BatchAnalysisSession` (the locale-formatted display `name` is
presentation-only and elided). -/
structure BatchAnalysisSession where
  id : String
  rows : List BatchRow
  results : List PromptAnalysis
  startTime : Nat
  endTime : Option Nat := none
  status : SessionStatus
  totalRows : Nat
  processedRows : Nat
deriving Repr, DecidableEq

def batchAnalysisId (t i : Nat) : String :=
  "batch-analysis-" ++ natToString t ++ "-" ++ natToString i

/-- One iteration of the batch loop (lines 169–224): per-row keywords,
inner try/catch as in `processPrompt`. -/
def processBatchRow (row : BatchRow) (outcome : Except String String)
    (t i : Nat) : Option PromptAnalysis :=
  match outcome with
  | .ok text =>
    (findKeywordMatches text row.keywords).map fun keywordMatches =>
      { id := batchAnalysisId t i, prompt := row.prompt, response := text
        keywordMatches := keywordMatches, timestamp := t
        status := .completed, error := none }
  | .error msg =>
    some { id := batchAnalysisId t i, prompt := row.prompt, response := ""
           keywordMatches := [], timestamp := t
           status := .error, error := some msg }

def runRows (provider : Nat → Except String String) (t : Nat) :
    List BatchRow → Nat → Option (List PromptAnalysis)
  | [], _ => some []
  | row :: rest, i =>
    match processBatchRow row (provider i) t i with
    | none => none
    | some a =>
      match runRows provider t rest (i + 1) with
      | none => none
      | some results => some (a :: results)

/-- `processBatch` (lines 144–252): early return on empty batch data, then
the sequential row loop and the completed session. -/
def processBatch (batchData : List BatchRow) (provider : Nat → Except String String)
    (t : Nat) : Option BatchAnalysisSession :=
  if batchData.length = 0 then none
  else
    match runRows provider t batchData 0 with
    | none => none
    | some results =>
      some { id := "batch-" ++ natToString t, rows := batchData, results := results
             startTime := t, endTime := some t, status := .completed
             totalRows := batchData.length, processedRows := batchData.length }

/-! ## Matcher lemmas -/

theorem prefMatch_length {p : RPat} {l : List Char} (h : prefMatch p l = true) :
    p.length ≤ l.length := by
  induction p generalizing l with
  | nil => simp
  | cons r q ih =>
    cases l with
    | nil => simp [prefMatch] at h
    | cons c t =>
      simp only [prefMatch, Bool.and_eq_true] at h
      simpa using Nat.succ_le_succ (ih h.2)

theorem findFromAux_some {p : RPat} {t : List Char} :
    ∀ {steps i j : Nat}, findFromAux p t steps i = some j →
      i ≤ j ∧ j < i + steps ∧ prefMatch p (t.drop j) = true := by
  intro steps
  induction steps with
  | zero => intro i j h; simp [findFromAux] at h
  | succ s ih =>
    intro i j h
    simp only [findFromAux] at h
    by_cases hp : prefMatch p (t.drop i) = true
    · rw [if_pos hp] at h
      cases h
      exact ⟨Nat.le_refl _, by omega, hp⟩
    · rw [if_neg hp] at h
      obtain ⟨h1, h2, h3⟩ := ih h
      exact ⟨by omega, by omega, h3⟩

theorem findFrom_some {p : RPat} {t : List Char} {i j : Nat}
    (h : findFrom p t i = some j) :
    i ≤ j ∧ j ≤ t.length ∧ prefMatch p (t.drop j) = true := by
  obtain ⟨h1, h2, h3⟩ := findFromAux_some h
  exact ⟨h1, by omega, h3⟩

theorem findFrom_some_end {p : RPat} {t : List Char} {i j : Nat}
    (h : findFrom p t i = some j) : j + p.length ≤ t.length := by
  obtain ⟨h1, h2, h3⟩ := findFrom_some h
  have hl := prefMatch_length h3
  simp only [List.length_drop] at hl
  omega

theorem findFrom_nil (t : List Char) (i : Nat) (h : i ≤ t.length) :
    findFrom ([] : RPat) t i = some i := by
  unfold findFrom
  have hs : t.length + 1 - i = (t.length - i) + 1 := by omega
  rw [hs]
  simp [findFromAux, prefMatch]

theorem length_pos_of_ne_nil {p : RPat} (hp : p ≠ []) : 1 ≤ p.length := by
  cases p with
  | nil => exact absurd rfl hp
  | cons r q => simp

theorem execLoop_flag {p : RPat} (hp : p ≠ []) (t : List Char) :
    ∀ fuel pos, t.length + 1 - pos ≤ fuel → 1 ≤ fuel →
      (execLoop p t fuel pos).2 = true := by
  intro fuel
  induction fuel with
  | zero => intro pos h h1; omega
  | succ f ih =>
    intro pos h h1
    simp only [execLoop]
    cases hf : findFrom p t pos with
    | none => rfl
    | some i =>
      simp only
      have hend := findFrom_some_end hf
      have hi := (findFrom_some hf).1
      have hplen := length_pos_of_ne_nil hp
      exact ih (i + p.length) (by omega) (by omega)

theorem scanPositions_eq {p : RPat} (hp : p ≠ []) (t : List Char) :
    scanPositions p t = some (execLoop p t (t.length + 1) 0).1 := by
  show (if (execLoop p t (t.length + 1) 0).2 = true then
      some (execLoop p t (t.length + 1) 0).1 else none) = _
  rw [execLoop_flag hp t (t.length + 1) 0 (by omega) (by omega)]
  rfl

theorem execLoop_nil_flag (t : List Char) :
    ∀ fuel, (execLoop ([] : RPat) t fuel 0).2 = false := by
  intro fuel
  induction fuel with
  | zero => rfl
  | succ f ih =>
    simp only [execLoop]
    rw [findFrom_nil t 0 (Nat.zero_le _)]
    simpa using ih

theorem scanPositions_nil (t : List Char) :
    scanPositions ([] : RPat) t = none := by
  show (if (execLoop ([] : RPat) t (t.length + 1) 0).2 = true then
      some (execLoop ([] : RPat) t (t.length + 1) 0).1 else none) = _
  rw [execLoop_nil_flag t]
  rfl

theorem execLoop_fst_eq_matchLoop {p : RPat} (hp : p ≠ []) (t : List Char) :
    ∀ fuel pos, (execLoop p t fuel pos).1 = matchLoop p t fuel pos := by
  intro fuel
  induction fuel with
  | zero => intro pos; rfl
  | succ f ih =>
    intro pos
    simp only [execLoop, matchLoop]
    cases hf : findFrom p t pos with
    | none => rfl
    | some i =>
      have hplen := length_pos_of_ne_nil hp
      simp only [Nat.max_eq_left hplen, ih]

theorem execLoop_pairwise {p : RPat} (hp : p ≠ []) (t : List Char) :
    ∀ fuel pos, (execLoop p t fuel pos).1.Pairwise (· < ·) ∧
      ∀ x ∈ (execLoop p t fuel pos).1, pos ≤ x := by
  intro fuel
  induction fuel with
  | zero => intro pos; simp [execLoop]
  | succ f ih =>
    intro pos
    simp only [execLoop]
    cases hf : findFrom p t pos with
    | none => simp
    | some i =>
      simp only
      obtain ⟨hpw, hbound⟩ := ih (i + p.length)
      have hplen := length_pos_of_ne_nil hp
      have hi := (findFrom_some hf).1
      constructor
      · exact List.Pairwise.cons (fun x hx => by have := hbound x hx; omega) hpw
      · intro x hx
        rcases List.mem_cons.mp hx with hx | hx
        · omega
        · have := hbound x hx; omega

theorem String_data_ne_nil {kw : String} (h : kw ≠ "") : kw.data ≠ [] := by
  intro hd
  apply h
  cases kw with
  | mk d =>
    simp only at hd
    rw [hd]

theorem compileKeyword_ne_nil {kw : String} (h : kw ≠ "") :
    compileKeyword kw ≠ [] := by
  intro hc
  apply String_data_ne_nil h
  unfold compileKeyword at hc
  simpa using hc

theorem scanKeyword_of_ne {p : RPat} (hp : p ≠ []) (text : String) :
    scanKeyword p text =
      some (jsMatchCount p text.data, (execLoop p text.data (text.data.length + 1) 0).1) := by
  unfold scanKeyword
  rw [scanPositions_eq hp]
  rfl

theorem scanKeyword_nil (text : String) :
    scanKeyword ([] : RPat) text = none := by
  unfold scanKeyword
  rw [scanPositions_nil]
  rfl

theorem scanKeywords_isSome {text : String} :
    ∀ {kws : List String}, (∀ kw ∈ kws, kw ≠ "") →
      ∃ ms, scanKeywords text kws = some ms := by
  intro kws
  induction kws with
  | nil => intro _; exact ⟨[], rfl⟩
  | cons kw rest ih =>
    intro h
    have hkw : compileKeyword kw ≠ [] := compileKeyword_ne_nil (h kw (by simp))
    obtain ⟨ms, hms⟩ := ih fun k hk => h k (by simp [hk])
    exact ⟨_, by simp only [scanKeywords]; rw [scanKeyword_of_ne hkw, hms]⟩

theorem findKeywordMatches_isSome {text : String} {kws : List String}
    (h : ∀ kw ∈ kws, kw ≠ "") :
    ∃ ms, findKeywordMatches text kws = some ms := by
  obtain ⟨ms, hms⟩ := scanKeywords_isSome h
  exact ⟨_, by unfold findKeywordMatches; rw [hms]; rfl⟩

theorem scanKeywords_none_of_empty_mem {text : String} :
    ∀ {kws : List String}, "" ∈ kws → scanKeywords text kws = none := by
  intro kws
  induction kws with
  | nil => intro h; simp at h
  | cons kw rest ih =>
    intro h
    simp only [scanKeywords]
    rcases List.mem_cons.mp h with h | h
    · rw [← h]
      have : compileKeyword "" = ([] : RPat) := rfl
      rw [this, scanKeyword_nil]
    · cases hk : scanKeyword (compileKeyword kw) text with
      | none => rfl
      | some r => rw [ih h]

theorem findKeywordMatches_none_of_empty_mem {text : String} {kws : List String}
    (h : "" ∈ kws) : findKeywordMatches text kws = none := by
  unfold findKeywordMatches
  rw [scanKeywords_none_of_empty_mem h]
  rfl

theorem scanKeywords_mem {text : String} :
    ∀ {kws : List String} {ms : List KeywordMatch},
      scanKeywords text kws = some ms → ∀ m ∈ ms,
        ∃ p : RPat, p ≠ [] ∧ m.count = jsMatchCount p text.data ∧
          m.positions = (execLoop p text.data (text.data.length + 1) 0).1 := by
  intro kws
  induction kws with
  | nil =>
    intro ms h m hm
    cases h
    simp at hm
  | cons kw rest ih =>
    intro ms h m hm
    simp only [scanKeywords] at h
    cases hk : scanKeyword (compileKeyword kw) text with
    | none => rw [hk] at h; cases h
    | some r =>
      rw [hk] at h
      cases hr : scanKeywords text rest with
      | none => rw [hr] at h; cases h
      | some ms' =>
        rw [hr] at h
        cases h
        have hp : compileKeyword kw ≠ [] := by
          intro hnil
          rw [hnil, scanKeyword_nil] at hk
          cases hk
        rw [scanKeyword_of_ne hp] at hk
        cases hk
        rcases List.mem_cons.mp hm with hm | hm
        · subst hm
          exact ⟨compileKeyword kw, hp, rfl, rfl⟩
        · exact ih hr m hm

theorem findKeywordMatches_mem {text : String} {kws : List String}
    {ms : List KeywordMatch} (h : findKeywordMatches text kws = some ms) :
    ∀ m ∈ ms, ∃ p : RPat, p ≠ [] ∧ m.count = jsMatchCount p text.data ∧
      m.positions = (execLoop p text.data (text.data.length + 1) 0).1 := by
  intro m hm
  unfold findKeywordMatches at h
  cases hs : scanKeywords text kws with
  | none => rw [hs] at h; cases h
  | some ms0 =>
    rw [hs] at h
    cases h
    exact scanKeywords_mem hs m (List.mem_of_mem_filter hm)

/-- C5: every `KeywordMatch` returned by the matcher has exactly as many
positions as its count, although the count (via `text.match`) and the
positions (via the `exec` loop) come from two separate scans of the text. -/
theorem positions_length_eq_count {text : String} {keywords : List String}
    {ms : List KeywordMatch} (h : findKeywordMatches text keywords = some ms) :
    ∀ m ∈ ms, m.positions.length = m.count := by
  intro m hm
  obtain ⟨p, hp, hc, hpos⟩ := findKeywordMatches_mem h m hm
  rw [hpos, hc, execLoop_fst_eq_matchLoop hp]
  rfl

theorem positions_length_eq_count_witness :
    findKeywordMatches "aaaa" ["aa"] = some [⟨"aa", 2, [0, 2]⟩] ∧
    ([0, 2] : List Nat).length = 2 :=
  ⟨by decide,
   @positions_length_eq_count "aaaa" ["aa"] [⟨"aa", 2, [0, 2]⟩] (by decide)
     ⟨"aa", 2, [0, 2]⟩ (by decide)⟩

/-- C9: the positions of every returned `KeywordMatch` are strictly
increasing — the `exec` scan collects start offsets left to right, each
resumption strictly past the previous start. -/
theorem positions_strictly_increasing {text : String} {keywords : List String}
    {ms : List KeywordMatch} (h : findKeywordMatches text keywords = some ms) :
    ∀ m ∈ ms, m.positions.Pairwise (· < ·) := by
  intro m hm
  obtain ⟨p, hp, _, hpos⟩ := findKeywordMatches_mem h m hm
  rw [hpos]
  exact (execLoop_pairwise hp text.data _ 0).1

theorem positions_strictly_increasing_witness :
    findKeywordMatches "aaaa" ["a"] = some [⟨"a", 4, [0, 1, 2, 3]⟩] ∧
    ([0, 1, 2, 3] : List Nat).Pairwise (· < ·) :=
  ⟨by decide,
   @positions_strictly_increasing "aaaa" ["a"] [⟨"a", 4, [0, 1, 2, 3]⟩] (by decide)
     ⟨"a", 4, [0, 1, 2, 3]⟩ (by decide)⟩

/-- C10: when no keyword can match the empty string (in the embedded
fragment: no keyword is the empty string, patterns being fixed-length),
every match consumed is non-empty, the scan position strictly advances and
`findKeywordMatches` is total; an empty-string keyword compiles to the
empty pattern, whose `exec` loop never advances — no fuel completes it —
and the matcher diverges. -/
theorem matcher_termination (text : String) (keywords : List String) :
    ((∀ kw ∈ keywords, kw ≠ "") → (findKeywordMatches text keywords).isSome) ∧
    (∀ fuel, (execLoop (compileKeyword "") text.data fuel 0).2 = false) ∧
    ("" ∈ keywords → findKeywordMatches text keywords = none) := by
  refine ⟨?_, ?_, ?_⟩
  · intro h
    obtain ⟨ms, hms⟩ := findKeywordMatches_isSome h
    rw [hms]
    rfl
  · intro fuel
    have hnil : compileKeyword "" = ([] : RPat) := rfl
    rw [hnil]
    exact execLoop_nil_flag text.data fuel
  · exact findKeywordMatches_none_of_empty_mem

theorem matcher_termination_witness :
    (findKeywordMatches "ab" ["a"]).isSome ∧
    (execLoop (compileKeyword "") "ab".data 5 0).2 = false ∧
    findKeywordMatches "ab" [""] = none :=
  ⟨(matcher_termination "ab" ["a"]).1 (by decide),
   (matcher_termination "ab" ["a"]).2.1 5,
   (matcher_termination "ab" [""]).2.2 (by decide)⟩

/-- C3: the code is not what the claim states — keywords are NOT escaped.
Keyword "a.b" is interpreted as pattern syntax and matches text "axb" at
position 0, while literal-text matching (the claimed and spec-intended
behavior, `findKeywordMatchesEscaped`) finds no occurrence there. -/
theorem keyword_pattern_not_escaped :
    findKeywordMatches "axb" ["a.b"] = some [⟨"a.b", 1, [0]⟩] ∧
    findKeywordMatchesEscaped "axb" ["a.b"] = some [] :=
  ⟨by decide, by decide⟩

/-! ## Analytics lemmas -/

theorem foldl_rat_len (analyses : List PromptAnalysis) :
    ∀ q : ℚ, analyses.foldl (fun sum a => sum + (a.response.length : ℚ)) q =
      q + (((analyses.map fun a => a.response.length).sum : ℕ) : ℚ) := by
  induction analyses with
  | nil => intro q; simp
  | cons a rest ih =>
    intro q
    simp only [List.foldl_cons, List.map_cons, List.sum_cons, ih]
    push_cast
    ring

/-- C1 (amended): `averageResponseLength` is the rounded mean of the
response lengths of ALL items — a non-completed item contributes its empty
response, length 0, to the mean — and is 0 exactly when the item list is
empty. -/
theorem averageResponseLength_mean_over_all_items
    (analyses : List PromptAnalysis) (currentSession : Option AnalysisSession)
    (now : Nat) :
    (analytics analyses currentSession now).averageResponseLength =
      averageResponseLengthAll analyses := by
  simp only [analytics, averageResponseLengthAll]
  rcases Nat.eq_zero_or_pos analyses.length with h | h
  · simp [h]
  · have h0 : analyses.length ≠ 0 := by omega
    simp [h, h0, foldl_rat_len]

def completedItemTen : PromptAnalysis :=
  { id := "a", prompt := "p", response := "aaaaaaaaaa", keywordMatches := []
    timestamp := 0, status := .completed, error := none }

def erroredItem : PromptAnalysis :=
  { id := "b", prompt := "q", response := "", keywordMatches := []
    timestamp := 0, status := .error, error := some "boom" }

/-- C1 counterexample: with one completed item (response of length 10) and
one errored item, the code divides by the total item count — round(10/2)=5 —
while the claimed completed-only mean is 10; errored items do enter the
mean. -/
theorem averageResponseLength_counts_error_items :
    (analytics [completedItemTen, erroredItem] none 0).averageResponseLength = 5 ∧
    averageResponseLengthSpec [completedItemTen, erroredItem] = 10 := by
  have h10 : ("aaaaaaaaaa" : String).length = 10 := by decide
  have h0 : ("" : String).length = 0 := by decide
  have hbe : (AnalysisStatus.error == AnalysisStatus.completed) = false := by decide
  have hbc : (AnalysisStatus.completed == AnalysisStatus.completed) = true := by decide
  constructor
  · simp only [analytics, completedItemTen, erroredItem, List.foldl_cons, List.foldl_nil,
      List.length_cons, List.length_nil, h10, h0]
    norm_num [mathRound]
  · simp only [averageResponseLengthSpec, completedItemTen, erroredItem, List.filter_cons,
      hbe, hbc, List.filter_nil, List.map_cons, List.map_nil, List.sum_cons, List.sum_nil,
      List.length_cons, List.length_nil, h10, if_true, if_false]
    norm_num [mathRound]

def runningSession : AnalysisSession :=
  { id := "session-0", prompts := ["p"], keywords := ["k"], results := []
    startTime := 0, endTime := none, status := .running }

/-- C6 counterexample: on a running session (`endTime` null) the analytics
computation reads the clock, so two calls on the same item list and the
same session at different instants disagree on `processingTime`. -/
theorem analytics_running_session_clock_dependent :
    analytics [] (some runningSession) 1 ≠ analytics [] (some runningSession) 2 := by
  decide

/-- C6 (amended): the analytics computation is deterministic — identical in
every field, `processingTime` included — whenever the session is absent or
already carries an `endTime`; only a still-running session makes
`processingTime` depend on the clock. -/
theorem analytics_deterministic_after_completion
    (analyses : List PromptAnalysis) (currentSession : Option AnalysisSession)
    (h : ∀ s ∈ currentSession, s.endTime.isSome) (n₁ n₂ : Nat) :
    analytics analyses currentSession n₁ = analytics analyses currentSession n₂ := by
  unfold analytics
  cases currentSession with
  | none => rfl
  | some s =>
    have hs := h s rfl
    cases he : s.endTime with
    | none => simp [he] at hs
    | some e => simp [he]

def doneSession : AnalysisSession :=
  { id := "session-0", prompts := ["p"], keywords := ["k"], results := []
    startTime := 0, endTime := some 9, status := .completed }

theorem analytics_deterministic_after_completion_witness :
    analytics [] (some doneSession) 1 = analytics [] (some doneSession) 2 :=
  analytics_deterministic_after_completion [] (some doneSession)
    (by intro s hs; cases hs; rfl) 1 2

/-! ## Decimal-string lemmas -/

theorem decDigitsRevAux_stable :
    ∀ (fuel fuel' n : Nat), n ≤ fuel → n ≤ fuel' →
      decDigitsRevAux fuel n = decDigitsRevAux fuel' n := by
  intro fuel
  induction fuel with
  | zero =>
    intro fuel' n h h'
    have hn : n = 0 := by omega
    subst hn
    cases fuel' <;> rfl
  | succ f ih =>
    intro fuel' n h h'
    cases n with
    | zero => cases fuel' <;> rfl
    | succ m =>
      cases fuel' with
      | zero => omega
      | succ f' =>
        simp only [decDigitsRevAux]
        congr 1
        exact ih f' ((m + 1) / 10) (by omega) (by omega)

theorem decDigitsRev_succ (n : Nat) :
    decDigitsRev (n + 1) = ((n + 1) % 10) :: decDigitsRev ((n + 1) / 10) := by
  show decDigitsRevAux (n + 1) (n + 1) = _
  have h1 : decDigitsRevAux (n + 1) (n + 1) =
      ((n + 1) % 10) :: decDigitsRevAux n ((n + 1) / 10) := rfl
  rw [h1]
  congr 1
  exact decDigitsRevAux_stable n ((n + 1) / 10) ((n + 1) / 10) (by omega) (by omega)

theorem decDigitsRev_eq_nil {n : Nat} (h : decDigitsRev n = []) : n = 0 := by
  cases n with
  | zero => rfl
  | succ m => rw [decDigitsRev_succ] at h; cases h

theorem decDigitsRev_injective : ∀ m n : Nat, decDigitsRev m = decDigitsRev n → m = n := by
  intro m
  induction m using Nat.strong_induction_on with
  | _ m ih =>
    intro n h
    cases m with
    | zero =>
      cases n with
      | zero => rfl
      | succ k => rw [decDigitsRev_succ] at h; cases h
    | succ l =>
      cases n with
      | zero => rw [decDigitsRev_succ] at h; cases h
      | succ k =>
        rw [decDigitsRev_succ, decDigitsRev_succ] at h
        injection h with h1 h2
        have hq : (l + 1) / 10 = (k + 1) / 10 :=
          ih ((l + 1) / 10) (by omega) ((k + 1) / 10) h2
        omega

theorem decDigitsRev_lt (n : Nat) : ∀ d ∈ decDigitsRev n, d < 10 := by
  induction n using Nat.strong_induction_on with
  | _ n ih =>
    cases n with
    | zero => intro d hd; cases hd
    | succ m =>
      intro d hd
      rw [decDigitsRev_succ] at hd
      rcases List.mem_cons.mp hd with hd | hd
      · omega
      · exact ih ((m + 1) / 10) (by omega) d hd

theorem decRep_injective : ∀ m n : Nat, decRep m = decRep n → m = n := by
  intro m n h
  unfold decRep at h
  by_cases hm : m = 0 <;> by_cases hn : n = 0
  · omega
  · rw [if_pos hm, if_neg hn] at h
    have := congrArg List.reverse h
    simp only [List.reverse_reverse] at this
    obtain ⟨k, rfl⟩ := Nat.exists_eq_succ_of_ne_zero hn
    rw [decDigitsRev_succ] at this
    injection this with h1 h2
    have := decDigitsRev_eq_nil h2.symm
    omega
  · rw [if_neg hm, if_pos hn] at h
    have := congrArg List.reverse h
    simp only [List.reverse_reverse] at this
    obtain ⟨k, rfl⟩ := Nat.exists_eq_succ_of_ne_zero hm
    rw [decDigitsRev_succ] at this
    injection this with h1 h2
    have := decDigitsRev_eq_nil h2
    omega
  · rw [if_neg hm, if_neg hn] at h
    exact decDigitsRev_injective m n (List.reverse_injective h)

theorem decRep_lt (n : Nat) : ∀ d ∈ decRep n, d < 10 := by
  intro d hd
  unfold decRep at hd
  by_cases hn : n = 0
  · rw [if_pos hn] at hd
    simp at hd
    omega
  · rw [if_neg hn] at hd
    exact decDigitsRev_lt n d (List.mem_reverse.mp hd)

theorem digitChar_inj_fin : ∀ a b : Fin 10,
    Nat.digitChar a.val = Nat.digitChar b.val → a = b := by decide

theorem map_digitChar_inj :
    ∀ (l₁ l₂ : List Nat), (∀ d ∈ l₁, d < 10) → (∀ d ∈ l₂, d < 10) →
      l₁.map Nat.digitChar = l₂.map Nat.digitChar → l₁ = l₂ := by
  intro l₁
  induction l₁ with
  | nil =>
    intro l₂ _ _ h
    cases l₂ with
    | nil => rfl
    | cons e l' => cases h
  | cons d l ih =>
    intro l₂ h₁ h₂ h
    cases l₂ with
    | nil => cases h
    | cons e l' =>
      injection h with hh ht
      have hd : d = e := by
        have ha := h₁ d (by simp)
        have hb := h₂ e (by simp)
        have := digitChar_inj_fin ⟨d, ha⟩ ⟨e, hb⟩ hh
        exact congrArg Fin.val this
      subst hd
      rw [ih l' (fun x hx => h₁ x (by simp [hx])) (fun x hx => h₂ x (by simp [hx])) ht]

theorem natToString_injective : ∀ m n : Nat, natToString m = natToString n → m = n := by
  intro m n h
  unfold natToString at h
  have hdata : (decRep m).map Nat.digitChar = (decRep n).map Nat.digitChar :=
    congrArg String.data h
  exact decRep_injective m n (map_digitChar_inj _ _ (decRep_lt m) (decRep_lt n) hdata)

theorem sessionIdOf_inj {t₁ t₂ : Nat} (h : sessionIdOf t₁ = sessionIdOf t₂) : t₁ = t₂ := by
  unfold sessionIdOf at h
  have hdata : "session-".data ++ (natToString t₁).data =
      "session-".data ++ (natToString t₂).data := congrArg String.data h
  have hns : (natToString t₁).data = (natToString t₂).data :=
    List.append_cancel_left hdata
  apply natToString_injective
  cases hx : natToString t₁ with
  | mk d₁ =>
    cases hy : natToString t₂ with
    | mk d₂ =>
      rw [hx, hy] at hns
      simp only at hns
      rw [hns]

/-! ## Scheduler lemmas -/

theorem processPrompt_isSome {keywords : List String} (hk : ∀ kw ∈ keywords, kw ≠ "")
    (prompt : String) (outcome : Except String String) (t : Nat) (itemId : String) :
    ∃ a, processPrompt keywords prompt outcome t itemId = some a := by
  cases outcome with
  | error msg => exact ⟨_, rfl⟩
  | ok text =>
    obtain ⟨ms, hms⟩ := @findKeywordMatches_isSome text keywords hk
    exact ⟨_, by simp only [processPrompt]; rw [hms]; rfl⟩

theorem processPrompt_shape {keywords : List String} {prompt : String}
    {outcome : Except String String} {t : Nat} {itemId : String} {a : PromptAnalysis}
    (h : processPrompt keywords prompt outcome t itemId = some a) :
    (∃ text, outcome = .ok text ∧ a.status = .completed ∧ a.response = text ∧
      a.error = none) ∨
    (∃ msg, outcome = .error msg ∧ a.status = .error ∧ a.response = "" ∧
      a.keywordMatches = [] ∧ a.error = some msg) := by
  cases outcome with
  | ok text =>
    left
    refine ⟨text, rfl, ?_⟩
    simp only [processPrompt] at h
    cases hf : findKeywordMatches text keywords with
    | none => rw [hf] at h; cases h
    | some ms =>
      rw [hf] at h
      cases h
      exact ⟨rfl, rfl, rfl⟩
  | error msg =>
    right
    refine ⟨msg, rfl, ?_⟩
    simp only [processPrompt] at h
    cases h
    exact ⟨rfl, rfl, rfl, rfl⟩

theorem runPrompts_spec {keywords : List String} {provider : Nat → Except String String}
    {t : Nat} :
    ∀ {prompts : List String} {i0 : Nat} {results : List PromptAnalysis},
      runPrompts keywords provider t prompts i0 = some results →
      results.length = prompts.length ∧
      ∀ j, (hj : j < prompts.length) → (hj2 : j < results.length) →
        processPrompt keywords (prompts.get ⟨j, hj⟩) (provider (i0 + j)) t
          (analysisId t (i0 + j)) = some (results.get ⟨j, hj2⟩) := by
  intro prompts
  induction prompts with
  | nil =>
    intro i0 results h
    cases h
    exact ⟨rfl, fun j hj _ => absurd hj (by simp)⟩
  | cons p rest ih =>
    intro i0 results h
    simp only [runPrompts] at h
    cases ha : processPrompt keywords p (provider i0) t (analysisId t i0) with
    | none => rw [ha] at h; cases h
    | some a =>
      rw [ha] at h
      cases hr : runPrompts keywords provider t rest (i0 + 1) with
      | none => rw [hr] at h; cases h
      | some rs =>
        rw [hr] at h
        cases h
        obtain ⟨hlen, hidx⟩ := ih hr
        refine ⟨by simp [hlen], ?_⟩
        intro j hj hj2
        cases j with
        | zero => simpa using ha
        | succ j' =>
          have hj' : j' < rest.length := by simpa using hj
          have hj2' : j' < rs.length := by simpa using hj2
          have hstep := hidx j' hj' hj2'
          have harith : i0 + 1 + j' = i0 + (j' + 1) := by omega
          rw [harith] at hstep
          simpa using hstep

theorem runPrompts_isSome {keywords : List String} (hk : ∀ kw ∈ keywords, kw ≠ "")
    (provider : Nat → Except String String) (t : Nat) :
    ∀ (prompts : List String) (i0 : Nat),
      ∃ results, runPrompts keywords provider t prompts i0 = some results := by
  intro prompts
  induction prompts with
  | nil => intro i0; exact ⟨[], rfl⟩
  | cons p rest ih =>
    intro i0
    obtain ⟨a, ha⟩ := processPrompt_isSome hk p (provider i0) t (analysisId t i0)
    obtain ⟨rs, hrs⟩ := ih (i0 + 1)
    exact ⟨a :: rs, by simp only [runPrompts]; rw [ha, hrs]⟩

theorem startAnalysis_some {prompts keywords : List String}
    {provider : Nat → Except String String} {t : Nat} {s : AnalysisSession}
    (h : startAnalysis prompts keywords provider t = some s) :
    s.id = sessionIdOf t ∧ s.status = .completed ∧ s.prompts = prompts ∧
    runPrompts keywords provider t prompts 0 = some s.results := by
  unfold startAnalysis at h
  split at h
  · cases h
  · cases hr : runPrompts keywords provider t prompts 0 with
    | none => rw [hr] at h; cases h
    | some rs =>
      rw [hr] at h
      cases h
      exact ⟨rfl, rfl, rfl, rfl⟩

theorem startAnalysis_isSome {prompts keywords : List String}
    (hp : prompts ≠ []) (hk : keywords ≠ []) (hkw : ∀ kw ∈ keywords, kw ≠ "")
    (provider : Nat → Except String String) (t : Nat) :
    ∃ s, startAnalysis prompts keywords provider t = some s := by
  obtain ⟨rs, hrs⟩ := runPrompts_isSome hkw provider t prompts 0
  exact ⟨_, by
    unfold startAnalysis
    rw [if_neg (by simp [List.length_eq_zero, hp, hk]), hrs]⟩

/-- C2 (amended): every item of a finished run is terminal, with shape:
`completed` with no error set and response equal to the provider text —
which MAY be empty, the code imposing no non-emptiness on it — or `error`
with the message set, empty response and no matches; the initial (pending)
items and the processing transition keep response and error empty.  The
second conjunct ties each item to its own provider call: a successful call
returning `text` (possibly `""`) yields the item completed with response
exactly `text` and no error, a failed call yields it errored with that
message, empty response and no matches. -/
theorem terminal_item_invariant
    {prompts keywords : List String} {provider : Nat → Except String String}
    {t : Nat} {s : AnalysisSession}
    (h : startAnalysis prompts keywords provider t = some s) :
    (∀ a ∈ s.results,
      (a.status = .completed ∧ a.error = none) ∨
      (a.status = .error ∧ a.error.isSome ∧ a.response = "" ∧
        a.keywordMatches = [])) ∧
    (∀ j, (hj : j < prompts.length) → (hj2 : j < s.results.length) →
      (∀ text, provider j = .ok text →
        (s.results.get ⟨j, hj2⟩).status = .completed ∧
        (s.results.get ⟨j, hj2⟩).response = text ∧
        (s.results.get ⟨j, hj2⟩).error = none) ∧
      (∀ msg, provider j = .error msg →
        (s.results.get ⟨j, hj2⟩).status = .error ∧
        (s.results.get ⟨j, hj2⟩).error = some msg ∧
        (s.results.get ⟨j, hj2⟩).response = "" ∧
        (s.results.get ⟨j, hj2⟩).keywordMatches = [])) ∧
    (∀ a ∈ initialAnalyses prompts t,
      a.status = .pending ∧ a.response = "" ∧ a.error = none) ∧
    (∀ a, (markProcessing a).response = a.response ∧
      (markProcessing a).error = a.error) := by
  obtain ⟨-, -, -, hrun⟩ := startAnalysis_some h
  obtain ⟨hlen, hidx⟩ := runPrompts_spec hrun
  refine ⟨?_, ?_, ?_, fun a => ⟨rfl, rfl⟩⟩
  · intro a ha
    obtain ⟨n, rfl⟩ := List.mem_iff_get.mp ha
    have hjp : n.val < prompts.length := by rw [← hlen]; exact n.isLt
    have hp := hidx n.val hjp n.isLt
    rcases processPrompt_shape hp with ⟨text, _, hst, _, herr⟩ |
      ⟨msg, _, hst, hresp, hkm, herr⟩
    · left; exact ⟨hst, herr⟩
    · right; exact ⟨hst, by rw [herr]; rfl, hresp, hkm⟩
  · intro j hj hj2
    have hpj := hidx j hj hj2
    rw [Nat.zero_add] at hpj
    constructor
    · intro text htext
      rw [htext] at hpj
      rcases processPrompt_shape hpj with ⟨text', heq, hst, hresp, herr⟩ |
        ⟨msg, heq, -⟩
      · cases heq; exact ⟨hst, hresp, herr⟩
      · cases heq
    · intro msg hmsg
      rw [hmsg] at hpj
      rcases processPrompt_shape hpj with ⟨text', heq, -⟩ |
        ⟨msg', heq, hst, hresp, hkm, herr⟩
      · cases heq
      · cases heq; exact ⟨hst, herr, hresp, hkm⟩
  · intro a ha
    unfold initialAnalyses at ha
    obtain ⟨pi, hpi, rfl⟩ := List.mem_map.mp ha
    exact ⟨rfl, rfl, rfl⟩

/-- C2 counterexample: a provider success with empty generated text makes
the run complete the item with an EMPTY response (and no error): the
claim's "a completed item has a non-empty response" is false on the code. -/
theorem completed_item_empty_response_possible :
    (startAnalysis ["p"] ["k"] (fun _ => Except.ok "") 0).map
      (fun s => s.results.map fun a => (a.status, a.response, a.error)) =
      some [(AnalysisStatus.completed, "", none)] := by decide

def provErr : Nat → Except String String := fun _ => Except.error "x"

def errItemZero : PromptAnalysis :=
  { id := analysisId 0 0, prompt := "p", response := "", keywordMatches := []
    timestamp := 0, status := .error, error := some "x" }

def sessErr : AnalysisSession :=
  { id := sessionIdOf 0, prompts := ["p"], keywords := ["k"]
    results := [errItemZero], startTime := 0, endTime := some 0
    status := .completed }

def provOkEmpty : Nat → Except String String := fun _ => Except.ok ""

def okEmptyItem : PromptAnalysis :=
  { id := analysisId 0 0, prompt := "p", response := "", keywordMatches := []
    timestamp := 0, status := .completed, error := none }

def sessOkEmpty : AnalysisSession :=
  { id := sessionIdOf 0, prompts := ["p"], keywords := ["k"]
    results := [okEmptyItem], startTime := 0, endTime := some 0
    status := .completed }

theorem terminal_item_invariant_witness :
    ((errItemZero.status = AnalysisStatus.completed ∧ errItemZero.error = none) ∨
     (errItemZero.status = AnalysisStatus.error ∧ errItemZero.error.isSome ∧
       errItemZero.response = "" ∧ errItemZero.keywordMatches = [])) ∧
    (sessErr.results.get ⟨0, by decide⟩).error = some "x" ∧
    ((sessOkEmpty.results.get ⟨0, by decide⟩).status = AnalysisStatus.completed ∧
     (sessOkEmpty.results.get ⟨0, by decide⟩).response = "" ∧
     (sessOkEmpty.results.get ⟨0, by decide⟩).error = none) :=
  ⟨(@terminal_item_invariant ["p"] ["k"] provErr 0 sessErr (by decide)).1
     errItemZero (by decide),
   (((@terminal_item_invariant ["p"] ["k"] provErr 0 sessErr (by decide)).2.1
     0 (by decide) (by decide)).2 "x" rfl).2.1,
   ((@terminal_item_invariant ["p"] ["k"] provOkEmpty 0 sessOkEmpty (by decide)).2.1
     0 (by decide) (by decide)).1 "" rfl⟩

/-- C4: with non-empty inputs (and no empty-string keyword, which would hang
the matcher on a successful call), the run always finishes: an individual
provider failure never aborts it — even when every call fails — the session
ends `completed` with exactly one terminal item per input prompt, a
successful call yields that item `completed` with the generated text, and a
failed call yields it `error` carrying the captured message. -/
theorem scheduler_survives_item_failures
    (prompts keywords : List String) (provider : Nat → Except String String)
    (t : Nat) (hp : prompts ≠ []) (hk : keywords ≠ [])
    (hkw : ∀ kw ∈ keywords, kw ≠ "") :
    ∃ s, startAnalysis prompts keywords provider t = some s ∧
      s.status = .completed ∧ s.results.length = prompts.length ∧
      ∀ j, (hj : j < prompts.length) → (hj2 : j < s.results.length) →
        (∀ text, provider j = .ok text →
          (s.results.get ⟨j, hj2⟩).status = .completed ∧
          (s.results.get ⟨j, hj2⟩).response = text) ∧
        (∀ msg, provider j = .error msg →
          (s.results.get ⟨j, hj2⟩).status = .error ∧
          (s.results.get ⟨j, hj2⟩).error = some msg) := by
  obtain ⟨s, hs⟩ := startAnalysis_isSome hp hk hkw provider t
  obtain ⟨-, hst, -, hrun⟩ := startAnalysis_some hs
  obtain ⟨hlen, hidx⟩ := runPrompts_spec hrun
  refine ⟨s, hs, hst, hlen, ?_⟩
  intro j hj hj2
  have hpj := hidx j hj hj2
  rw [Nat.zero_add] at hpj
  constructor
  · intro text htext
    rw [htext] at hpj
    rcases processPrompt_shape hpj with ⟨text', heq, hst', hresp, -⟩ |
      ⟨msg, heq, -⟩
    · cases heq; exact ⟨hst', hresp⟩
    · cases heq
  · intro msg hmsg
    rw [hmsg] at hpj
    rcases processPrompt_shape hpj with ⟨text', heq, -⟩ |
      ⟨msg', heq, hst', -, -, herr⟩
    · cases heq
    · cases heq; exact ⟨hst', herr⟩

def provMixed : Nat → Except String String := fun i =>
  if i = 0 then Except.ok "ka" else Except.error "boom"

theorem scheduler_survives_item_failures_witness :
    (startAnalysis ["a", "b"] ["k"] provMixed 0).map (fun s => s.status) =
      some SessionStatus.completed ∧
    (startAnalysis ["a", "b"] ["k"] provMixed 0).map (fun s => s.results.length) =
      some 2 := by
  obtain ⟨s, hs, hst, hlen, -⟩ :=
    scheduler_survives_item_failures ["a", "b"] ["k"] provMixed 0
      (by decide) (by decide) (by decide)
  rw [hs]
  simp [hst, hlen]

/-- C7 counterexample: two different runs started at the same millisecond
value get the SAME session id — `session-${Date.now()}` collides within one
clock tick, so the new id does not differ from every prior session's id for
all clock values. -/
theorem same_millisecond_session_id_collision :
    (startAnalysis ["a"] ["k"] (fun _ => Except.error "e") 7).map (fun s => s.id) =
      (startAnalysis ["b", "c"] ["k"] (fun _ => Except.error "e") 7).map
        (fun s => s.id) ∧
    (startAnalysis ["a"] ["k"] (fun _ => Except.error "e") 7).isSome :=
  ⟨by decide, by decide⟩

/-- C7 (amended): the session id embeds the start clock value, so runs
started at DIFFERENT clock values (reset in between or not) have different
ids; the new session has exactly one item per new prompt regardless of any
previous session's size; reset clears the session state. -/
theorem session_id_fresh_for_new_clock
    {p₁ k₁ p₂ k₂ : List String} {pr₁ pr₂ : Nat → Except String String}
    {t₁ t₂ : Nat} (hne : t₁ ≠ t₂) {s₁ s₂ : AnalysisSession}
    (h₁ : startAnalysis p₁ k₁ pr₁ t₁ = some s₁)
    (h₂ : startAnalysis p₂ k₂ pr₂ t₂ = some s₂) :
    s₁.id ≠ s₂.id ∧ s₂.results.length = p₂.length ∧
    ∀ st : AppState, (resetAnalysis st).currentSession = none ∧
      (resetAnalysis st).analyses = [] := by
  obtain ⟨hid₁, -, -, hrun₁⟩ := startAnalysis_some h₁
  obtain ⟨hid₂, -, -, hrun₂⟩ := startAnalysis_some h₂
  refine ⟨?_, (runPrompts_spec hrun₂).1, fun st => ⟨rfl, rfl⟩⟩
  rw [hid₁, hid₂]
  intro hcontra
  exact hne (sessionIdOf_inj hcontra)

def provE : Nat → Except String String := fun _ => Except.error "e"

def sessOne : AnalysisSession :=
  { id := sessionIdOf 1, prompts := ["a"], keywords := ["k"]
    results := [{ id := analysisId 1 0, prompt := "a", response := ""
                  keywordMatches := [], timestamp := 1, status := .error
                  error := some "e" }]
    startTime := 1, endTime := some 1, status := .completed }

def sessTwo : AnalysisSession :=
  { id := sessionIdOf 2, prompts := ["b", "c"], keywords := ["k"]
    results := [{ id := analysisId 2 0, prompt := "b", response := ""
                  keywordMatches := [], timestamp := 2, status := .error
                  error := some "e" },
                { id := analysisId 2 1, prompt := "c", response := ""
                  keywordMatches := [], timestamp := 2, status := .error
                  error := some "e" }]
    startTime := 2, endTime := some 2, status := .completed }

theorem session_id_fresh_for_new_clock_witness :
    sessOne.id ≠ sessTwo.id ∧ sessTwo.results.length = 2 :=
  ⟨(@session_id_fresh_for_new_clock ["a"] ["k"] ["b", "c"] ["k"] provE provE 1 2
      (by decide) sessOne sessTwo (by decide) (by decide)).1,
   (@session_id_fresh_for_new_clock ["a"] ["k"] ["b", "c"] ["k"] provE provE 1 2
      (by decide) sessOne sessTwo (by decide) (by decide)).2.1⟩

/-- C8: a parsed batch table with more than 50 valid rows is rejected before
anything is processed: the upload handler stores no rows and raises the
limit error, and with no stored rows the batch runner returns without
creating any session (so no PromptItem exists and no provider call is
made). -/
theorem batch_over_limit_rejected
    (csvText : String) (rows : List BatchRow)
    (hparse : parseCSV csvText = .ok rows) (hlen : rows.length > 50) :
    handleFileUpload csvText = (some "Maximum 50 rows allowed per batch", []) ∧
    ∀ (provider : Nat → Except String String) (t : Nat),
      processBatch [] provider t = none := by
  constructor
  · unfold handleFileUpload
    rw [hparse]
    have h0 : ¬ rows.length = 0 := by omega
    simp [h0, hlen]
  · intro provider t
    rfl

def csv51 : String :=
  "prompt,keywords" ++ (List.replicate 51 "\na,b").foldl (fun acc r => acc ++ r) ""

def rows51 : List BatchRow :=
  List.replicate 51 { prompt := "a", keywords := ["b"] }

theorem batch_over_limit_rejected_witness :
    handleFileUpload csv51 = (some "Maximum 50 rows allowed per batch", []) ∧
    processBatch [] (fun _ => Except.error "e") 0 = none :=
  ⟨(batch_over_limit_rejected csv51 rows51 (by rfl) (by decide)).1,
   (batch_over_limit_rejected csv51 rows51 (by rfl) (by decide)).2
     (fun _ => Except.error "e") 0⟩
